import Mathlib

/-!
Verification development for the passerine runtime core: the NaN-tagged
value cell (src/vm/tag.rs), the frame-structured execution stack
(src/vm/stack.rs) and the recursive-descent parser (src/compiler/parse.rs).

Machine integers are modelled as `Nat` with masks taken literally from the
source; 64-bit floats are represented by their IEEE-754 bit pattern (the
source only manipulates reals through `to_bits` / `from_bits` / `is_nan`).
A Rust panic / abort is modelled as `none` (or a dedicated `panicked`
constructor for the parser, whose `Result`-level errors are ordinary
values that must be distinguished from unwinding).
-/

namespace Passerine

/-- Modelled from the spec: `Data` (src/common/data.rs is not under src/) is
the logical value space: unit, booleans, 64-bit reals, owned strings, the
`Heaped` shared indirection (an `Rc<RefCell<Data>>`, modelled as an index
into an explicit store), and the internal frame sentinel. A real is carried
as its 64-bit IEEE-754 bit pattern. -/
inductive Data where
  | Real (bits : Nat)
  | Boolean (b : Bool)
  | Unit
  | String (s : String)
  | Heaped (addr : Nat)
  | Frame
deriving DecidableEq, Repr

/-- Constants of the NaN-tagging scheme, literally from src/vm/tag.rs. -/
def QNAN : Nat := 0x7ffe000000000000

def P_FLAG : Nat := 0x8000000000000000

def P_MASK : Nat := 0x0000FFFFFFFFFFFF

def U_FLAG : Nat := 0x0000000000000000

def F_FLAG : Nat := 0x0000000000000010

def T_FLAG : Nat := 0x0000000000000011

/-- IEEE-754 double exponent mask (bits 52..62). -/
def EXP_MASK : Nat := 0x7ff0000000000000

/-- IEEE-754 double mantissa mask (bits 0..51). -/
def MANT_MASK : Nat := 0x000fffffffffffff

/-- A 64-bit pattern is a NaN iff its exponent is all ones and its mantissa
is non-zero; this is `f64::is_nan` at the bit level. -/
def isNaN (bits : Nat) : Bool :=
  (bits &&& EXP_MASK == EXP_MASK) && (bits &&& MANT_MASK != 0)

/-- The one-word tagged cell of src/vm/tag.rs: `pub struct Tagged(u64)`.
`bits` is the word. A pointer-tagged cell owns a heap box holding a `Data`;
the box lives at address `bits &&& P_MASK`, and `box` records its contents
(`none` when the cell owns no box, i.e. for inline patterns). -/
structure Tagged where
  bits : Nat
  box : Option Data
deriving DecidableEq, Repr

/-- `Tagged::new` (tag.rs lines 41-55): reals are stored as their bit
pattern, unit and the booleans as fixed quiet-NaN immediates, and every
other variant is boxed on the heap with the pointer stored in the low 48
bits of a pointer-flagged quiet NaN. `addr` is the address the allocator
returns for the box (irrelevant for inline patterns). -/
def Tagged.new (addr : Nat) : Data → Tagged
  | Data.Real f => ⟨f, none⟩
  | Data.Unit => ⟨QNAN ||| U_FLAG, none⟩
  | Data.Boolean false => ⟨QNAN ||| F_FLAG, none⟩
  | Data.Boolean true => ⟨QNAN ||| T_FLAG, none⟩
  | other => ⟨P_FLAG ||| QNAN ||| (P_MASK &&& addr), some other⟩

/-- `Tagged::frame()` (tag.rs): a frame sentinel cell is `Tagged::new` of
`Data::Frame`, hence always pointer-tagged. -/
def Tagged.frame (addr : Nat) : Tagged := Tagged.new addr Data.Frame

/-- `Tagged::extract` (tag.rs lines 63-80): the decode cascade. A pattern
that is not a quiet NaN is a real; the three immediates are matched
exactly; a pointer-flagged pattern reconstructs the heap box
(`Box::from_raw(bits & P_MASK)`) and returns it on the `Err` side, which is
well-defined only when this very cell owns that box (`t.box = some d`) —
reconstructing a box from a pattern that does not own one is undefined
behaviour, modelled as `none`, as is the final `unreachable!`. -/
def Tagged.extract (t : Tagged) : Option (Data ⊕ Data) :=
  if t.bits &&& QNAN ≠ QNAN then some (Sum.inl (Data.Real t.bits))
  else if t.bits = QNAN ||| U_FLAG then some (Sum.inl Data.Unit)
  else if t.bits = QNAN ||| F_FLAG then some (Sum.inl (Data.Boolean false))
  else if t.bits = QNAN ||| T_FLAG then some (Sum.inl (Data.Boolean true))
  else if t.bits &&& P_FLAG = P_FLAG then t.box.map Sum.inr
  else none

/-- `Tagged::data` (tag.rs lines 85-90): unwrap either side of `extract`. -/
def Tagged.data (t : Tagged) : Option Data :=
  match t.extract with
  | some (Sum.inl d) => some d
  | some (Sum.inr d) => some d
  | none => none

/-- How many times one run of `extract` reclaims (`Box::from_raw`, leading
to deallocation once the result is consumed) the heap box of this cell:
once for a pointer-tagged pattern, never otherwise. -/
def Tagged.extractReclaims (t : Tagged) : Nat :=
  match t.extract with
  | some (Sum.inr _) => 1
  | _ => 0

/-- `impl Drop for Tagged` (tag.rs lines 105-114): `drop` re-runs the same
`extract` cascade and frees the reconstructed box (`mem::drop(*boxed)`), so
its reclaim count is exactly `extract`'s. -/
def Tagged.dropReclaims (t : Tagged) : Nat := t.extractReclaims

/-- Total box reclamations over `Tagged::data(self)`'s lifetime. `extract`
takes `&self` and calls `mem::forget(self)` on that *reference* — a no-op
that does not defuse the cell — so when `data` (which takes `self` by
value) returns, the cell still runs `Drop::drop`, which re-runs `extract`
on the same bit pattern and reclaims the same box a second time. -/
def Tagged.dataReclaims (t : Tagged) : Nat :=
  t.extractReclaims + t.dropReclaims

/-- Variants stored inline by the encoding (tag.rs `new`): reals, unit and
booleans. Everything else is heap-boxed. -/
def Data.isInline : Data → Bool
  | Data.Real _ => true
  | Data.Unit => true
  | Data.Boolean _ => true
  | _ => false

/-- Modelled from the spec: the continuation saved when a call frame is
opened (src/vm/slot.rs is not under src/) — at minimum the return
instruction position and a reference to the caller's closure, stored and
returned opaquely by the stack. -/
structure Suspend where
  ip : Nat
  closure : Nat
deriving DecidableEq, Repr

/-- Modelled from the spec: `Slot` (src/vm/slot.rs is not under src/), the
decoded content of a stack cell: a value, the frame sentinel, a suspended
continuation, or the transient uninitialized placeholder. -/
inductive Slot where
  | Data (d : Passerine.Data)
  | Frame
  | Suspend (s : Passerine.Suspend)
  | NotInit
deriving DecidableEq, Repr

/-- Modelled from the spec: `Slot` exposes "extract the Value or fail" —
`Slot::data()` returns the carried `Data` and panics on any other state. -/
def Slot.data : Slot → Option Passerine.Data
  | Slot.Data d => some d
  | _ => none

/-- Modelled from the spec: the stack stores `Tagged`-encoded `Slot`s
(stack.rs calls `Tagged::new(Slot::...)`, `.slot()`, `Tagged::frame()` and
`Tagged::not_init()`, an interface of the cell encoder not present under
src/). Since at `Slot` level encode and decode are mutual inverses, a cell
is modelled by the `Slot` it encodes; `.slot` is the decode. -/
structure Cell where
  slot : Slot
deriving DecidableEq, Repr

/-- The execution stack, `pub struct Stack { frames, stack }` of
src/vm/stack.rs. `store` models the `Rc<RefCell<Data>>` heap that
`Data::Heaped` points into (implicit in Rust's allocator): a `Heaped addr`
dereferences to `store[addr]`. Every operation that can panic returns
`Option`, with `none` for the abort. -/
structure Stack where
  frames : List Nat
  stack : List Cell
  store : List Data
deriving DecidableEq, Repr

/-- `Stack::init` (stack.rs lines 29-34): one frame base at 0, one frame
sentinel cell. -/
def Stack.init : Stack :=
  { frames := [0], stack := [⟨Slot.Frame⟩], store := [] }

/-- `Stack::push_data` (stack.rs): tag some data and push it. -/
def Stack.push_data (s : Stack) (d : Data) : Stack :=
  { s with stack := s.stack ++ [⟨Slot.Data d⟩] }

/-- `Stack::push_tagged` (stack.rs): push an already-tagged cell. -/
def Stack.push_tagged (s : Stack) (c : Cell) : Stack :=
  { s with stack := s.stack ++ [c] }

/-- `Stack::pop_data` (stack.rs lines 66-74): pop the top cell (panicking
when the stack is empty), decode it, panic unless it is `Slot::Data`, and
dereference a `Heaped` indirection (`h.borrow().clone()`) instead of
returning it. -/
def Stack.pop_data (s : Stack) : Option (Data × Stack) :=
  match s.stack.getLast? with
  | none => none
  | some c =>
    let s' : Stack := { s with stack := s.stack.dropLast }
    match c.slot.data with
    | none => none
    | some (Data.Heaped h) =>
      match s'.store[h]? with
      | none => none
      | some v => some (v, s')
    | some d => some (d, s')

/-- `Stack::pop_frame` (stack.rs lines 79-92): pop the newest frame-base
index, pop the top cell (which must decode to the `Frame` sentinel), then
`swap(index, Tagged::frame())` — indexing `stack[index]` with the *popped*
frame's own base index (out of bounds once the sentinel is gone) — and
require the swapped-out slot to be `Suspend`. -/
def Stack.pop_frame (s : Stack) : Option (Suspend × Stack) :=
  match s.frames.getLast? with
  | none => none
  | some index =>
    match s.stack.getLast? with
    | none => none
    | some top =>
      match top.slot with
      | Slot.Frame =>
        match s.stack.dropLast[index]? with
        | none => none
        | some old =>
          match old.slot with
          | Slot.Suspend k =>
            some (k, { frames := s.frames.dropLast,
                       stack := s.stack.dropLast.set index ⟨Slot.Frame⟩,
                       store := s.store })
          | _ => none
      | _ => none

/-- `Stack::push_frame` (stack.rs lines 97-102): overwrite the current
frame's sentinel with the suspended continuation (`stack[frame_index] = ...`
panics when out of bounds), push the current length as the new frame base,
and push a fresh sentinel. -/
def Stack.push_frame (s : Stack) (suspend : Suspend) : Option Stack :=
  match s.frames.getLast? with
  | none => none
  | some frame_index =>
    if frame_index < s.stack.length then
      some { frames := s.frames ++ [s.stack.length],
             stack := (s.stack.set frame_index ⟨Slot.Suspend suspend⟩) ++ [⟨Slot.Frame⟩],
             store := s.store }
    else none

/-- `Stack::heapify` (stack.rs lines 107-113): swap the local out for the
placeholder (panicking when `frame_index + index + 1` is out of bounds),
decode it to `Data` (panicking otherwise), allocate a fresh
`Rc<RefCell<_>>` holding that data, and write the `Heaped` indirection
back. -/
def Stack.heapify (s : Stack) (index : Nat) : Option Stack :=
  match s.frames.getLast? with
  | none => none
  | some frame_index =>
    let local_index := frame_index + index + 1
    match s.stack[local_index]? with
    | none => none
    | some old =>
      let stack1 := s.stack.set local_index ⟨Slot.NotInit⟩
      match old.slot.data with
      | none => none
      | some d =>
        some { frames := s.frames,
               stack := stack1.set local_index ⟨Slot.Data (Data.Heaped s.store.length)⟩,
               store := s.store ++ [d] }

/-- `Stack::local_slot` (stack.rs lines 116-126): swap the local out for
the placeholder, clone the decoded slot, swap the original back; returns
the clone. -/
def Stack.local_slot (s : Stack) (index : Nat) : Option (Slot × Stack) :=
  match s.frames.getLast? with
  | none => none
  | some frame_index =>
    let local_index := frame_index + index + 1
    match s.stack[local_index]? with
    | none => none
    | some old =>
      let slot := old.slot
      let copy := slot
      some (copy,
        { s with stack := (s.stack.set local_index ⟨Slot.NotInit⟩).set local_index ⟨slot⟩ })

/-- `Stack::local_data` (stack.rs lines 127-137): like `local_slot` but
additionally unwraps the slot to `Data` (panicking on a non-data slot).
The clone of a `Heaped` indirection is the indirection itself (`Rc` clones
share), not the referent. -/
def Stack.local_data (s : Stack) (index : Nat) : Option (Data × Stack) :=
  match s.frames.getLast? with
  | none => none
  | some frame_index =>
    let local_index := frame_index + index + 1
    match s.stack[local_index]? with
    | none => none
    | some old =>
      let stack1 := s.stack.set local_index ⟨Slot.NotInit⟩
      match old.slot.data with
      | none => none
      | some d =>
        some (d, { s with stack := stack1.set local_index ⟨Slot.Data d⟩ })

/-- `Stack::set_local` (stack.rs lines 143-172): a declaration when the
local's position is exactly the top of stack; a fatal error when it lies
beyond the top; otherwise swap the old local out and either mutate the
referent in place (`cell.replace(self.pop_data())`) when it is `Heaped`,
panic when it is the frame sentinel, or pop the top cell into its place. -/
def Stack.set_local (s : Stack) (index : Nat) : Option Stack :=
  match s.frames.getLast? with
  | none => none
  | some frame_index =>
    let local_index := frame_index + index + 1
    if s.stack.length - 1 = local_index then
      some s
    else if s.stack.length - 1 < local_index then
      none
    else
      match s.stack[local_index]? with
      | none => none
      | some old =>
        let stack1 := s.stack.set local_index ⟨Slot.NotInit⟩
        match old.slot with
        | Slot.Frame => none
        | Slot.Data (Data.Heaped cell) =>
          match Stack.pop_data { s with stack := stack1 } with
          | none => none
          | some r =>
            if cell < r.2.store.length then
              some { frames := r.2.frames,
                     stack := r.2.stack.set local_index ⟨Slot.Data (Data.Heaped cell)⟩,
                     store := r.2.store.set cell r.1 }
            else none
        | _ =>
          match stack1.getLast? with
          | none => none
          | some top =>
            some { s with stack := (stack1.dropLast).set local_index top }

/-- The stack invariant of the spec: the frame-base list is non-empty and
the cell at the newest frame base decodes to the `Frame` sentinel (which in
particular forces the base index to be in bounds). -/
def Inv (s : Stack) : Prop :=
  ∃ fi, s.frames.getLast? = some fi ∧ s.stack[fi]? = some ⟨Slot.Frame⟩

/-- Scenario of claim C4: declare local 0 as `Boolean(true)`, promote it,
assign `Boolean(false)` through `set_local`, then peek with `local_data`. -/
def scenC4 : Option (Data × Stack) := do
  let s1 := Stack.init.push_data (Data.Boolean true)
  let s2 ← s1.set_local 0
  let s3 ← s2.heapify 0
  let s4 := s3.push_data (Data.Boolean false)
  let s5 ← s4.set_local 0
  s5.local_data 0

/-- A stack whose only local of the current frame already holds a `Heaped`
indirection (used for claims about double promotion). -/
def stackC8 : Stack :=
  { frames := [0],
    stack := [⟨Slot.Frame⟩, ⟨Slot.Data (Data.Heaped 0)⟩],
    store := [Data.Boolean true] }

/-! Parser layer, src/compiler/parse.rs. The token, span, syntax-error and
AST types live in files not under src/ and are modelled from the spec as
far as parse.rs exercises them. -/

/-- Modelled from the spec: a source span — position-tracked as an offset
and a length (src/common/span.rs is not under src/). -/
structure Span where
  offset : Nat
  length : Nat
deriving DecidableEq, Repr

/-- Models `span.end()`: one past the last position covered. -/
def Span.ends (s : Span) : Nat := s.offset + s.length

/-- Models `Span::empty()`. -/
def Span.empty : Span := ⟨0, 0⟩

/-- Models `Span::combine`: the smallest span covering both. -/
def Span.combine (a b : Span) : Span :=
  ⟨min a.offset b.offset, max a.ends b.ends - min a.offset b.offset⟩

/-- Models `Span::join` over a non-empty list of spans. -/
def Span.join : List Span → Span
  | [] => Span.empty
  | s :: rest => rest.foldl Span.combine s

/-- Modelled from the spec: an item paired with its source span
(src/common/span.rs `Spanned`). -/
structure Spanned (α : Type) where
  item : α
  span : Span
deriving DecidableEq, Repr

/-- Modelled from the spec: the recoverable, position-tracked parser error
(src/compiler/syntax.rs `Syntax`, built by `Syntax::error(msg, span)`;
named `Syn` here to avoid clashing with the ambient `Syntax` type). -/
structure Syn where
  msg : String
  span : Span
deriving DecidableEq, Repr

/-- Modelled from the spec: the tokens parse.rs matches on
(src/compiler/token.rs is not under src/). Literal payloads are carried as
`Data`, as in `AST::data(n.clone())`. -/
inductive Token where
  | Sep
  | OpenBracket
  | CloseBracket
  | OpenParen
  | CloseParen
  | Assign
  | Lambda
  | Symbol
  | Number (n : Passerine.Data)
  | String (s : Passerine.Data)
  | Boolean (b : Passerine.Data)
deriving DecidableEq, Repr

/-- Modelled from the spec: the AST nodes parse.rs constructs
(src/compiler/ast.rs is not under src/): symbols, literal data, blocks,
left-folded calls, lambdas and assignments. -/
inductive AST where
  | Symbol
  | data (d : Passerine.Data)
  | block (exprs : List (Spanned AST))
  | call (f a : Spanned AST)
  | lambda (p b : Spanned AST)
  | assign (p e : Spanned AST)
deriving Repr

/-- `type Tokens` of parse.rs: a slice of spanned tokens. -/
abbrev Tokens := List (Spanned Token)

/-- `type Bite` of parse.rs: a parsed expression and the rest of the
stream. -/
abbrev Bite := Spanned AST × Tokens

/-- `type Rule` of parse.rs: a parsing rule. -/
abbrev Rule := Tokens → Except Syn Bite

/-- `vaccum` (parse.rs lines 37-48): drop all leading tokens equal to
`token`. -/
def vaccum (tokens : Tokens) (token : Token) : Tokens :=
  match tokens with
  | [] => []
  | t :: rest => if t.item = token then vaccum rest token else t :: rest

/-- `consume` (parse.rs lines 52-74): expect an exact token next, error
with its span otherwise (`Expected {}, found {}` — the formatted message is
abbreviated to a fixed text, which no claim depends on). -/
def consume (tokens : Tokens) (token : Token) : Except Syn Tokens :=
  match tokens with
  | [] => Except.error ⟨"Unexpected EOF while parsing", Span.empty⟩
  | t :: rest =>
    if t.item = token then Except.ok rest
    else Except.error ⟨"Expected token", t.span⟩

/-- The error-escalation step of `first` (parse.rs lines 92-105): keep the
worst error so far, replacing it only by an error that starts strictly
later, or starts at the same offset and ends strictly later. -/
def escalate : Option Syn → Syn → Option Syn
  | some p, e =>
    if e.span.offset > p.span.offset
        ∨ (e.span.offset = p.span.offset ∧ e.span.ends > p.span.ends) then
      some e
    else some p
  | none, e => some e

/-- Loop of `first` (parse.rs lines 79-125): try each rule in order,
returning the first success; collect the worst failure; when every rule
fails return the worst error, and when there were no rules at all fall
back to an `Unexpected construct` / EOF error. -/
def firstGo (tokens : Tokens) : List Rule → Option Syn → Except Syn Bite
  | [], some e => Except.error e
  | [], none =>
    match tokens with
    | t :: _ => Except.error ⟨"Unexpected construct", t.span⟩
    | [] => Except.error ⟨"Unexpected EOF while parsing", Span.empty⟩
  | r :: rs, worst =>
    match r tokens with
    | Except.ok res => Except.ok res
    | Except.error e => firstGo tokens rs (escalate worst e)

/-- `first` (parse.rs lines 79-125). -/
def first (tokens : Tokens) (rules : List Rule) : Except Syn Bite :=
  firstGo tokens rules none

/-- The ordering `first` maximises: `a ≤ b` iff `b`'s span starts later,
or starts at the same offset and ends no earlier. -/
def leKey (a b : Syn) : Prop :=
  a.span.offset < b.span.offset
    ∨ (a.span.offset = b.span.offset ∧ a.span.ends ≤ b.span.ends)

/-! The whole-parser interpretation. Rust panics are not `Result` values:
they unwind through every caller. So the parser functions are interpreted
into `PResult`, which separates a returned `Err(Syntax)` from a panic; a
`fuelOut` constructor accounts for the recursion depth budget of the
shallow embedding (the source recursion is unbounded). -/

/-- Outcome of running a parser function: a value, a returned
`Err(Syntax)`, a panic unwinding past it, or an exhausted fuel budget. -/
inductive PResult (α : Type) where
  | ok (a : α)
  | err (e : Syn)
  | panicked (msg : String)
  | fuelOut

/-- True exactly on a returned `Err(Syntax)`. -/
def PResult.isErr : PResult α → Bool
  | PResult.err _ => true
  | _ => false

/-- Result triple of `block` (parse.rs line 133): the parsed block, the
error that interrupted it if any, and the remaining tokens. -/
abbrev BlockRes := Spanned AST × Option Syn × Tokens

/-- Tail of `block` (parse.rs lines 160-166): panic when no expression was
parsed, otherwise return the block with the recorded error and remainder. -/
def blockFinish (exprs : List (Spanned AST)) (anns : List Span)
    (error : Option Syn) (remaining : Tokens) : PResult BlockRes :=
  if anns.isEmpty then PResult.panicked "annotations were empty"
  else PResult.ok (⟨AST.block exprs, Span.join anns⟩, error, remaining)

/-- `literal` (parse.rs lines 301-318): match one literal token. -/
def literalF (tokens : Tokens) : PResult Bite :=
  match tokens with
  | ⟨token, span⟩ :: rest =>
    match token with
    | Token.Symbol => PResult.ok (⟨AST.Symbol, span⟩, rest)
    | Token.Number n => PResult.ok (⟨AST.data n, span⟩, rest)
    | Token.String s => PResult.ok (⟨AST.data s, span⟩, rest)
    | Token.Boolean b => PResult.ok (⟨AST.data b, span⟩, rest)
    | _ => PResult.err ⟨"Unexpected token", span⟩
  | [] => PResult.err ⟨"Unexpected EOF while parsing", Span.empty⟩

/-- Loop of `first` lifted to `PResult` rules: identical to `firstGo`
except that a rule that panics (or runs out of fuel) unwinds immediately
instead of being recorded as a candidate error. -/
def firstPGo (tokens : Tokens) :
    List (Tokens → PResult Bite) → Option Syn → PResult Bite
  | [], some e => PResult.err e
  | [], none =>
    match tokens with
    | t :: _ => PResult.err ⟨"Unexpected construct", t.span⟩
    | [] => PResult.err ⟨"Unexpected EOF while parsing", Span.empty⟩
  | r :: rs, worst =>
    match r tokens with
    | PResult.ok res => PResult.ok res
    | PResult.err e => firstPGo tokens rs (escalate worst e)
    | PResult.panicked m => PResult.panicked m
    | PResult.fuelOut => PResult.fuelOut

/-- `first` lifted to `PResult` rules. -/
def firstP (tokens : Tokens) (rules : List (Tokens → PResult Bite)) :
    PResult Bite :=
  firstPGo tokens rules none

/-- One fuel level of the mutually recursive parser functions of parse.rs:
`block` (split into its entry and its while-loop), `call` (entry and
loop), `expr`, `expr_block`, `expr_call`, `op`, `assign`, `assign_assign`
and `lambda`. -/
structure Parsers where
  blockF : Tokens → PResult BlockRes
  blockLoop : Tokens → List (Spanned AST) → List Span → PResult BlockRes
  callF : Tokens → PResult Bite
  callLoop : Spanned AST → Tokens → PResult Bite
  exprF : Tokens → PResult Bite
  expr_blockF : Tokens → PResult Bite
  expr_callF : Tokens → PResult Bite
  opF : Tokens → PResult Bite
  assignF : Tokens → PResult Bite
  assign_assignF : Tokens → PResult Bite
  lambdaF : Tokens → PResult Bite

/-- The fuel-exhausted bottom of the interpretation. -/
def outOfFuel : Parsers where
  blockF := fun _ => PResult.fuelOut
  blockLoop := fun _ _ _ => PResult.fuelOut
  callF := fun _ => PResult.fuelOut
  callLoop := fun _ _ => PResult.fuelOut
  exprF := fun _ => PResult.fuelOut
  expr_blockF := fun _ => PResult.fuelOut
  expr_callF := fun _ => PResult.fuelOut
  opF := fun _ => PResult.fuelOut
  assignF := fun _ => PResult.fuelOut
  assign_assignF := fun _ => PResult.fuelOut
  lambdaF := fun _ => PResult.fuelOut

/-- One unfolding step: each body is the literal translation of its
parse.rs function, with every (mutually) recursive call taken at the
previous fuel level `p`. -/
def step (p : Parsers) : Parsers where
  -- `block`, lines 133-167: vaccum separators, then loop.
  blockF := fun tokens => p.blockLoop (vaccum tokens Token.Sep) [] []
  -- the while-loop of `block`: stop on empty input, parse a call, record
  -- its span and expression, vaccum separators; on error break and hand
  -- the error (and un-consumed remainder) to the tail.
  blockLoop := fun remaining exprs anns =>
    match remaining with
    | [] => blockFinish exprs anns none []
    | t :: ts =>
      match p.callF (t :: ts) with
      | PResult.ok (e, r) =>
        p.blockLoop (vaccum r Token.Sep) (exprs ++ [e]) (anns ++ [e.span])
      | PResult.err er => blockFinish exprs anns (some er) (t :: ts)
      | PResult.panicked m => PResult.panicked m
      | PResult.fuelOut => PResult.fuelOut
  -- `call`, lines 172-194: one expression, then left-fold applications.
  callF := fun tokens =>
    match p.exprF (vaccum tokens Token.Sep) with
    | PResult.ok (previous, remaining) => p.callLoop previous remaining
    | PResult.err e => PResult.err e
    | PResult.panicked m => PResult.panicked m
    | PResult.fuelOut => PResult.fuelOut
  -- the while-loop of `call`: `_ => break` catches exactly `Err`.
  callLoop := fun previous remaining =>
    match remaining with
    | [] => PResult.ok (previous, [])
    | t :: ts =>
      match p.exprF (t :: ts) with
      | PResult.ok (arg, r) =>
        p.callLoop ⟨AST.call previous arg, Span.combine previous.span arg.span⟩ r
      | PResult.err _ => PResult.ok (previous, t :: ts)
      | PResult.panicked m => PResult.panicked m
      | PResult.fuelOut => PResult.fuelOut
  -- `expr`, lines 197-207.
  exprF := fun tokens =>
    firstP tokens [p.expr_blockF, p.expr_callF, p.opF, fun s => literalF s]
  -- `expr_block`, lines 210-236: on a missing closing bracket, prefer the
  -- error `block` broke on, if any.
  expr_blockF := fun tokens =>
    match consume tokens Token.OpenBracket with
    | Except.error e => PResult.err e
    | Except.ok start =>
      match p.blockF start with
      | PResult.ok (ast, error, remaining) =>
        match consume remaining Token.CloseBracket with
        | Except.ok toks => PResult.ok (ast, toks)
        | Except.error e =>
          match error with
          | some s => PResult.err s
          | none => PResult.err e
      | PResult.err e => PResult.err e
      | PResult.panicked m => PResult.panicked m
      | PResult.fuelOut => PResult.fuelOut
  -- `expr_call`, lines 238-245.
  expr_callF := fun tokens =>
    match consume tokens Token.OpenParen with
    | Except.error e => PResult.err e
    | Except.ok start =>
      match p.callF start with
      | PResult.ok (ast, finish) =>
        match consume finish Token.CloseParen with
        | Except.ok remaining => PResult.ok (ast, remaining)
        | Except.error e => PResult.err e
      | PResult.err e => PResult.err e
      | PResult.panicked m => PResult.panicked m
      | PResult.fuelOut => PResult.fuelOut
  -- `op`, lines 247-249.
  opF := fun tokens => p.assignF tokens
  -- `assign`, lines 252-260.
  assignF := fun tokens => firstP tokens [p.assign_assignF, p.lambdaF]
  -- `assign_assign`, lines 265-281.
  assign_assignF := fun tokens =>
    match literalF tokens with
    | PResult.ok (next, remaining) =>
      match next with
      | ⟨AST.Symbol, sspan⟩ =>
        match consume remaining Token.Assign with
        | Except.error e => PResult.err e
        | Except.ok rem2 =>
          match p.callF rem2 with
          | PResult.ok (e, remaining2) =>
            PResult.ok
              (⟨AST.assign ⟨AST.Symbol, sspan⟩ e, Span.combine sspan e.span⟩,
                remaining2)
          | PResult.err e => PResult.err e
          | PResult.panicked m => PResult.panicked m
          | PResult.fuelOut => PResult.fuelOut
      | other => PResult.err ⟨"Expected symbol for assignment", other.span⟩
    | PResult.err e => PResult.err e
    | PResult.panicked m => PResult.panicked m
    | PResult.fuelOut => PResult.fuelOut
  -- `lambda`, lines 284-298.
  lambdaF := fun tokens =>
    match literalF tokens with
    | PResult.ok (next, remaining) =>
      match next with
      | ⟨AST.Symbol, sspan⟩ =>
        match consume remaining Token.Lambda with
        | Except.error e => PResult.err e
        | Except.ok rem2 =>
          match p.callF rem2 with
          | PResult.ok (e, remaining2) =>
            PResult.ok
              (⟨AST.lambda ⟨AST.Symbol, sspan⟩ e, Span.combine sspan e.span⟩,
                remaining2)
          | PResult.err e => PResult.err e
          | PResult.panicked m => PResult.panicked m
          | PResult.fuelOut => PResult.fuelOut
      | other => PResult.err ⟨"Expected symbol for function paramater", other.span⟩
    | PResult.err e => PResult.err e
    | PResult.panicked m => PResult.panicked m
    | PResult.fuelOut => PResult.fuelOut

/-- The parser at fuel `n`: `n` unfolding steps over the bottom. -/
def parsers : Nat → Parsers
  | 0 => outOfFuel
  | n + 1 => step (parsers n)

/-- `parse` (parse.rs lines 20-28): run `block` on the whole stream; an
interrupting error is returned as `Err`; otherwise panic unless the
remainder vaccums to nothing. -/
def parseF (fuel : Nat) (tokens : Tokens) : PResult (Spanned AST) :=
  match (parsers fuel).blockF tokens with
  | PResult.ok (_, some e, _) => PResult.err e
  | PResult.ok (ast, none, toks) =>
    if (vaccum toks Token.Sep).isEmpty then PResult.ok ast
    else PResult.panicked "Did not consume all tokens"
  | PResult.err e => PResult.err e
  | PResult.panicked m => PResult.panicked m
  | PResult.fuelOut => PResult.fuelOut

/-- Observer on `block`'s outcome: the remaining tokens of a successful
return (used to state claims without comparing ASTs). -/
def blockRemaining : PResult BlockRes → Option Tokens
  | PResult.ok (_, _, r) => some r
  | _ => none

/-- Observer on `block`'s outcome: whether a successful return carries an
interrupting error. -/
def blockErrored : PResult BlockRes → Option Bool
  | PResult.ok (_, e, _) => some e.isSome
  | _ => none

/-- Observer: the panic message, if the outcome is a panic. -/
def panicMsg : PResult α → Option String
  | PResult.panicked m => some m
  | _ => none

/-- Concrete token stream with a leftover token after a parsed prefix: a
symbol followed by a stray closing parenthesis. -/
def exC10 : Tokens := [⟨Token.Symbol, ⟨0, 1⟩⟩, ⟨Token.CloseParen, ⟨1, 1⟩⟩]

/-- A parser outcome may only panic with the empty-block message. -/
def GoodR (x : PResult α) : Prop :=
  ∀ m, x = PResult.panicked m → m = "annotations were empty"

/-- A concrete always-failing rule (error at offset 1, span of length 2). -/
def ruleA : Rule := fun _ => Except.error ⟨"a", ⟨1, 2⟩⟩

/-- A concrete always-failing rule (error at offset 3, span of length 1). -/
def ruleB : Rule := fun _ => Except.error ⟨"b", ⟨3, 1⟩⟩

end Passerine

namespace Passerine

/-! Helper lemmas about the bit-level encoding. -/

/-- A mask already fully contained in `a` survives or-ing anything onto
`a`. -/
theorem or_and_mask {a m : Nat} (b : Nat) (h : a &&& m = m) :
    (a ||| b) &&& m = m := by
  apply Nat.eq_of_testBit_eq
  intro i
  have hi := congrArg (fun n => n.testBit i) h
  simp only [Nat.testBit_and, Nat.testBit_or] at hi ⊢
  cases hm : m.testBit i <;> cases hb : b.testBit i <;> cases ha : a.testBit i <;>
    simp_all

/-- Containment of masks is transitive through a word. -/
theorem and_mask_trans {f m m' : Nat} (hsub : m' &&& m = m')
    (h : f &&& m = m) : f &&& m' = m' := by
  apply Nat.eq_of_testBit_eq
  intro i
  have h1 := congrArg (fun n => n.testBit i) hsub
  have h2 := congrArg (fun n => n.testBit i) h
  simp only [Nat.testBit_and] at h1 h2 ⊢
  cases hm : m.testBit i <;> cases hm' : m'.testBit i <;> cases hf : f.testBit i <;>
    simp_all

/-- A word that is not a NaN pattern never matches the full quiet-NaN tag
mask: all `QNAN` bits set forces an all-ones exponent and a non-zero
mantissa. -/
theorem not_isNaN_no_collide {f : Nat} (h : isNaN f = false) :
    f &&& QNAN ≠ QNAN := by
  intro hq
  have hexp : f &&& EXP_MASK = EXP_MASK :=
    and_mask_trans (by decide) hq
  have h51 : f.testBit 51 = true := by
    have := congrArg (fun n => n.testBit 51) hq
    simp only [Nat.testBit_and] at this
    have hq51 : QNAN.testBit 51 = true := by decide
    rw [hq51] at this
    simpa using this
  have hmant : f &&& MANT_MASK ≠ 0 := by
    intro h0
    have := congrArg (fun n => n.testBit 51) h0
    simp only [Nat.testBit_and, Nat.zero_testBit] at this
    have hm51 : MANT_MASK.testBit 51 = true := by decide
    rw [h51, hm51] at this
    simp at this
  rw [isNaN, hexp] at h
  simp at h
  exact hmant h

/-- The pointer-tagged pattern always has all quiet-NaN mask bits set. -/
theorem ptr_and_qnan (a : Nat) :
    (P_FLAG ||| QNAN ||| (P_MASK &&& a)) &&& QNAN = QNAN :=
  or_and_mask _ (by decide)

/-- Bit 63 of the pointer-tagged pattern is the pointer flag. -/
theorem ptr_testBit63 (a : Nat) :
    (P_FLAG ||| QNAN ||| (P_MASK &&& a)).testBit 63 = true := by
  have h1 : P_FLAG.testBit 63 = true := by decide
  simp only [Nat.testBit_or, h1, Bool.true_or]

/-- The pointer-tagged pattern is never the unit immediate. -/
theorem ptr_ne_unit (a : Nat) :
    P_FLAG ||| QNAN ||| (P_MASK &&& a) ≠ QNAN ||| U_FLAG := by
  intro h
  have h63 := ptr_testBit63 a
  rw [h] at h63
  exact absurd h63 (by decide)

/-- The pointer-tagged pattern is never the false immediate. -/
theorem ptr_ne_false (a : Nat) :
    P_FLAG ||| QNAN ||| (P_MASK &&& a) ≠ QNAN ||| F_FLAG := by
  intro h
  have h63 := ptr_testBit63 a
  rw [h] at h63
  exact absurd h63 (by decide)

/-- The pointer-tagged pattern is never the true immediate. -/
theorem ptr_ne_true (a : Nat) :
    P_FLAG ||| QNAN ||| (P_MASK &&& a) ≠ QNAN ||| T_FLAG := by
  intro h
  have h63 := ptr_testBit63 a
  rw [h] at h63
  exact absurd h63 (by decide)

/-- The pointer flag is set in the pointer-tagged pattern. -/
theorem ptr_and_pflag (a : Nat) :
    (P_FLAG ||| QNAN ||| (P_MASK &&& a)) &&& P_FLAG = P_FLAG := by
  apply Nat.eq_of_testBit_eq
  intro i
  simp only [Nat.testBit_and, Nat.testBit_or]
  by_cases h : i = 63
  · subst h
    have h1 : P_FLAG.testBit 63 = true := by decide
    have h2 : QNAN.testBit 63 = false := by decide
    have h3 : P_MASK.testBit 63 = false := by decide
    simp [h1, h2, h3]
  · have hp : P_FLAG.testBit i = false := by
      have he : P_FLAG = 2 ^ 63 := by decide
      rw [he]
      exact Nat.testBit_two_pow_of_ne (fun hh => h hh.symm)
    simp [hp]

/-- Decoding a pointer-tagged cell reaches the pointer branch and returns
the owned box. -/
theorem extract_ptr (a : Nat) (d : Data) :
    Tagged.extract ⟨P_FLAG ||| QNAN ||| (P_MASK &&& a), some d⟩ =
      some (Sum.inr d) := by
  rw [Tagged.extract]
  simp only [ptr_and_qnan, ne_eq, not_true_eq_false, if_false,
    ptr_ne_unit, ptr_ne_false, ptr_ne_true, if_pos (ptr_and_pflag a)]
  rfl

/-- Under the stack invariant, `pop_frame` always aborts: either the
popped frame's base is the top of the stack, in which case the subsequent
`swap(index, ...)` indexes one past the new end, or extra cells sit above
the sentinel, in which case either the top is not the sentinel or the cell
found at `index` is the current frame's own sentinel rather than the
caller's `Suspend`. -/
theorem pop_frame_none_of_inv (s : Stack) (h : Inv s) : s.pop_frame = none := by
  obtain ⟨fi, hf, hc⟩ := h
  have hfi : fi < s.stack.length := by
    by_contra hge
    rw [List.getElem?_eq_none (Nat.le_of_not_lt hge)] at hc
    exact Option.noConfusion hc
  have hpos : 0 < s.stack.length := Nat.lt_of_le_of_lt (Nat.zero_le _) hfi
  obtain ⟨top, htop⟩ : ∃ top, s.stack.getLast? = some top := by
    rw [List.getLast?_eq_getElem?]
    exact ⟨_, List.getElem?_eq_getElem (by omega)⟩
  simp only [Stack.pop_frame, hf, htop]
  cases hslot : top.slot with
  | Frame =>
    rcases Nat.lt_or_ge fi (s.stack.length - 1) with hlt | hge
    · have hold : s.stack.dropLast[fi]? = some ⟨Slot.Frame⟩ := by
        rw [List.dropLast_eq_take, List.getElem?_take, if_pos hlt]
        exact hc
      rw [hold]
    · have hold : s.stack.dropLast[fi]? = none := by
        rw [List.dropLast_eq_take, List.getElem?_take, if_neg (by omega)]
      rw [hold]
  | Data d => rfl
  | Suspend k => rfl
  | NotInit => rfl

/-- An index at which a lookup succeeds is in bounds. -/
theorem lt_length_of_getElem? {α : Type} {l : List α} {i : Nat} {a : α}
    (h : l[i]? = some a) : i < l.length := by
  by_contra hge
  rw [List.getElem?_eq_none (Nat.le_of_not_lt hge)] at h
  exact Option.noConfusion h

/-- Lookups strictly below the last position survive `dropLast`. -/
theorem getElem?_dropLast_of_lt {α : Type} {l : List α} {i : Nat}
    (h : i < l.length - 1) : l.dropLast[i]? = l[i]? := by
  rw [List.dropLast_eq_take, List.getElem?_take, if_pos h]

/-- Invariant preservation for `push_data`. -/
theorem inv_push_data (s : Stack) (d : Data) (h : Inv s) :
    Inv (s.push_data d) := by
  obtain ⟨fi, hf, hc⟩ := h
  refine ⟨fi, hf, ?_⟩
  show (s.stack ++ [⟨Slot.Data d⟩])[fi]? = some ⟨Slot.Frame⟩
  rw [List.getElem?_append, if_pos (lt_length_of_getElem? hc)]
  exact hc

/-- Invariant preservation for `push_tagged`. -/
theorem inv_push_tagged (s : Stack) (c : Cell) (h : Inv s) :
    Inv (s.push_tagged c) := by
  obtain ⟨fi, hf, hc⟩ := h
  refine ⟨fi, hf, ?_⟩
  show (s.stack ++ [c])[fi]? = some ⟨Slot.Frame⟩
  rw [List.getElem?_append, if_pos (lt_length_of_getElem? hc)]
  exact hc

/-- Invariant preservation for `pop_data`: a successful pop cannot have
consumed the sentinel (the sentinel is not data), so the base cell
survives `dropLast`. -/
theorem inv_pop_data (s : Stack) (r : Data × Stack) (h : Inv s)
    (hp : s.pop_data = some r) : Inv r.2 := by
  obtain ⟨fi, hf, hc⟩ := h
  have hfi : fi < s.stack.length := lt_length_of_getElem? hc
  cases hl : s.stack.getLast? with
  | none =>
    rw [Stack.pop_data, hl] at hp
    exact Option.noConfusion hp
  | some c =>
    have hne : fi ≠ s.stack.length - 1 := by
      intro he
      rw [Stack.pop_data, List.getLast?_eq_getElem?, ← he, hc] at hp
      simp [Slot.data] at hp
    have hr2 : r.2 = { s with stack := s.stack.dropLast } := by
      simp only [Stack.pop_data, hl] at hp
      split at hp
      · exact Option.noConfusion hp
      · split at hp
        · exact Option.noConfusion hp
        · cases hp
          rfl
      · cases hp
        rfl
    rw [hr2]
    exact ⟨fi, hf, by rw [getElem?_dropLast_of_lt (by omega)]; exact hc⟩

/-- Invariant preservation for `push_frame`: the fresh sentinel sits at
the recorded new base, the old stack length. -/
theorem inv_push_frame (s : Stack) (k : Suspend) (s' : Stack) (h : Inv s)
    (hp : s.push_frame k = some s') : Inv s' := by
  obtain ⟨fi, hf, hc⟩ := h
  simp only [Stack.push_frame, hf] at hp
  rw [if_pos (lt_length_of_getElem? hc)] at hp
  have hs := (Option.some.inj hp).symm
  subst hs
  refine ⟨s.stack.length, List.getLast?_concat _, ?_⟩
  show ((s.stack.set fi ⟨Slot.Suspend k⟩) ++ [⟨Slot.Frame⟩])[s.stack.length]? = _
  have hlen : (s.stack.set fi ⟨Slot.Suspend k⟩).length = s.stack.length :=
    List.length_set ..
  rw [← hlen, List.getElem?_concat_length]

/-- Invariant preservation for `heapify`: only the local's own slot (above
the base) is rewritten. -/
theorem inv_heapify (s : Stack) (i : Nat) (s' : Stack) (h : Inv s)
    (hp : s.heapify i = some s') : Inv s' := by
  obtain ⟨fi, hf, hc⟩ := h
  simp only [Stack.heapify, hf] at hp
  split at hp
  · exact Option.noConfusion hp
  · split at hp
    · exact Option.noConfusion hp
    · have hs := (Option.some.inj hp).symm
      subst hs
      refine ⟨fi, hf, ?_⟩
      show ((s.stack.set (fi + i + 1) ⟨Slot.NotInit⟩).set (fi + i + 1) _)[fi]?
          = some ⟨Slot.Frame⟩
      rw [List.getElem?_set_ne (by omega), List.getElem?_set_ne (by omega)]
      exact hc

/-- A successful `pop_data` leaves the frames and store as they were and
drops exactly the last cell. -/
theorem pop_data_snd (s : Stack) (r : Data × Stack)
    (hp : s.pop_data = some r) :
    r.2 = { s with stack := s.stack.dropLast } := by
  cases hl : s.stack.getLast? with
  | none =>
    rw [Stack.pop_data, hl] at hp
    exact Option.noConfusion hp
  | some c =>
    simp only [Stack.pop_data, hl] at hp
    split at hp
    · exact Option.noConfusion hp
    · split at hp
      · exact Option.noConfusion hp
      · cases hp
        rfl
    · cases hp
      rfl

/-- Invariant preservation for `set_local`: every branch leaves the frame
base cell untouched — the declaration no-op trivially, the `Heaped` branch
and the swap-and-drop branch because the local's position and the popped
top both lie strictly above the base. -/
theorem inv_set_local (s : Stack) (i : Nat) (s' : Stack) (h : Inv s)
    (hp : s.set_local i = some s') : Inv s' := by
  obtain ⟨fi, hf, hc⟩ := h
  have hfi : fi < s.stack.length := lt_length_of_getElem? hc
  simp only [Stack.set_local, hf] at hp
  by_cases h1 : s.stack.length - 1 = fi + i + 1
  · rw [if_pos h1] at hp
    cases hp
    exact ⟨fi, hf, hc⟩
  · rw [if_neg h1] at hp
    by_cases h2 : s.stack.length - 1 < fi + i + 1
    · rw [if_pos h2] at hp
      exact Option.noConfusion hp
    · rw [if_neg h2] at hp
      have hlt : fi + i + 1 < s.stack.length - 1 := by omega
      split at hp
      · exact Option.noConfusion hp
      · split at hp
        · exact Option.noConfusion hp
        · -- Heaped local: referent mutated through pop_data
          split at hp
          · exact Option.noConfusion hp
          next r hpop =>
            have hr2 := pop_data_snd _ _ hpop
            split at hp
            · cases hp
              refine ⟨fi, ?_, ?_⟩
              · show r.2.frames.getLast? = some fi
                rw [hr2]
                exact hf
              · show (r.2.stack.set (fi + i + 1) _)[fi]? = some ⟨Slot.Frame⟩
                rw [hr2]
                rw [List.getElem?_set_ne (by omega)]
                rw [getElem?_dropLast_of_lt (by rw [List.length_set]; omega)]
                rw [List.getElem?_set_ne (by omega)]
                exact hc
            · exact Option.noConfusion hp
        · -- plain local: swap-and-drop of the popped top
          split at hp
          · exact Option.noConfusion hp
          · cases hp
            refine ⟨fi, hf, ?_⟩
            show (((s.stack.set (fi + i + 1) ⟨Slot.NotInit⟩).dropLast).set
                (fi + i + 1) _)[fi]? = some ⟨Slot.Frame⟩
            rw [List.getElem?_set_ne (by omega)]
            rw [getElem?_dropLast_of_lt (by rw [List.length_set]; omega)]
            rw [List.getElem?_set_ne (by omega)]
            exact hc

/-- Invariant preservation for `local_data`. -/
theorem inv_local_data (s : Stack) (i : Nat) (r : Data × Stack) (h : Inv s)
    (hp : s.local_data i = some r) : Inv r.2 := by
  obtain ⟨fi, hf, hc⟩ := h
  simp only [Stack.local_data, hf] at hp
  split at hp
  · exact Option.noConfusion hp
  · split at hp
    · exact Option.noConfusion hp
    · have hs := congrArg Prod.snd (Option.some.inj hp).symm
      rw [hs]
      refine ⟨fi, hf, ?_⟩
      show ((s.stack.set (fi + i + 1) ⟨Slot.NotInit⟩).set (fi + i + 1) _)[fi]?
          = some ⟨Slot.Frame⟩
      rw [List.getElem?_set_ne (by omega), List.getElem?_set_ne (by omega)]
      exact hc

/-- Invariant preservation for `local_slot`. -/
theorem inv_local_slot (s : Stack) (i : Nat) (r : Slot × Stack) (h : Inv s)
    (hp : s.local_slot i = some r) : Inv r.2 := by
  obtain ⟨fi, hf, hc⟩ := h
  simp only [Stack.local_slot, hf] at hp
  split at hp
  · exact Option.noConfusion hp
  · have hs := congrArg Prod.snd (Option.some.inj hp).symm
    rw [hs]
    refine ⟨fi, hf, ?_⟩
    show ((s.stack.set (fi + i + 1) ⟨Slot.NotInit⟩).set (fi + i + 1) _)[fi]?
        = some ⟨Slot.Frame⟩
    rw [List.getElem?_set_ne (by omega), List.getElem?_set_ne (by omega)]
    exact hc

/-- The escalation key order is reflexive. -/
theorem leKey_refl (a : Syn) : leKey a a := by
  unfold leKey
  omega

/-- The escalation key order is transitive. -/
theorem leKey_trans {a b c : Syn} (h1 : leKey a b) (h2 : leKey b c) :
    leKey a c := by
  unfold leKey at *
  omega

/-- A strictly-escalating error is at least as good as the old worst. -/
theorem leKey_of_strict {w e : Syn}
    (h : e.span.offset > w.span.offset
      ∨ (e.span.offset = w.span.offset ∧ e.span.ends > w.span.ends)) :
    leKey w e := by
  unfold leKey
  omega

/-- A non-escalating error is at most the kept worst. -/
theorem leKey_of_not_strict {w e : Syn}
    (h : ¬(e.span.offset > w.span.offset
      ∨ (e.span.offset = w.span.offset ∧ e.span.ends > w.span.ends))) :
    leKey e w := by
  unfold leKey
  omega

/-- Loop invariant of `first`: when every remaining rule fails, the loop
started with worst error `w` returns an error that is one of `w` or the
remaining rules' errors, dominates `w`, and dominates every remaining
rule's error in the escalation order. -/
theorem firstGo_allFail (tokens : Tokens) :
    ∀ (rules : List Rule) (w : Syn),
      (∀ r ∈ rules, ∃ e, r tokens = Except.error e) →
      ∃ e, firstGo tokens rules (some w) = Except.error e
        ∧ (e = w ∨ ∃ r ∈ rules, r tokens = Except.error e)
        ∧ leKey w e
        ∧ (∀ r ∈ rules, ∀ e', r tokens = Except.error e' → leKey e' e) := by
  intro rules
  induction rules with
  | nil =>
    intro w _
    exact ⟨w, rfl, Or.inl rfl, leKey_refl w, by simp⟩
  | cons r rs ih =>
    intro w hall
    obtain ⟨e0, he0⟩ := hall r (List.mem_cons_self r rs)
    have hrs : ∀ r' ∈ rs, ∃ e, r' tokens = Except.error e :=
      fun r' hr' => hall r' (List.mem_cons_of_mem r hr')
    have hstep : firstGo tokens (r :: rs) (some w)
        = firstGo tokens rs (escalate (some w) e0) := by
      simp only [firstGo, he0]
    by_cases hcond : e0.span.offset > w.span.offset
        ∨ (e0.span.offset = w.span.offset ∧ e0.span.ends > w.span.ends)
    · have hesc : escalate (some w) e0 = some e0 := by
        simp only [escalate, if_pos hcond]
      obtain ⟨e, h1, h2, h3, h4⟩ := ih e0 hrs
      refine ⟨e, by rw [hstep, hesc]; exact h1, ?_, ?_, ?_⟩
      · rcases h2 with h2 | ⟨r', hr', hre⟩
        · exact Or.inr ⟨r, List.mem_cons_self r rs, h2 ▸ he0⟩
        · exact Or.inr ⟨r', List.mem_cons_of_mem r hr', hre⟩
      · exact leKey_trans (leKey_of_strict hcond) h3
      · intro r' hr' e' hre'
        rcases List.mem_cons.mp hr' with rfl | hmem
        · rw [he0] at hre'
          injection hre' with hh
          exact hh ▸ h3
        · exact h4 r' hmem e' hre'
    · have hesc : escalate (some w) e0 = some w := by
        simp only [escalate, if_neg hcond]
      obtain ⟨e, h1, h2, h3, h4⟩ := ih w hrs
      refine ⟨e, by rw [hstep, hesc]; exact h1, ?_, h3, ?_⟩
      · rcases h2 with h2 | ⟨r', hr', hre⟩
        · exact Or.inl h2
        · exact Or.inr ⟨r', List.mem_cons_of_mem r hr', hre⟩
      · intro r' hr' e' hre'
        rcases List.mem_cons.mp hr' with rfl | hmem
        · rw [he0] at hre'
          injection hre' with hh
          exact hh ▸ leKey_trans (leKey_of_not_strict hcond) h3
        · exact h4 r' hmem e' hre'

/-- When some rule succeeds, the loop of `first` returns a success
whatever worst error it carries. -/
theorem firstGo_ok (tokens : Tokens) :
    ∀ (rules : List Rule) (worst : Option Syn),
      (∃ r ∈ rules, ∃ b, r tokens = Except.ok b) →
      ∃ b, firstGo tokens rules worst = Except.ok b := by
  intro rules
  induction rules with
  | nil =>
    intro worst h
    simp at h
  | cons r rs ih =>
    intro worst h
    cases hr : r tokens with
    | ok b => exact ⟨b, by simp only [firstGo, hr]⟩
    | error e =>
      obtain ⟨r', hr', b, hb⟩ := h
      rcases List.mem_cons.mp hr' with rfl | hmem
      · rw [hr] at hb
        exact Except.noConfusion hb
      · have := ih (escalate worst e) ⟨r', hmem, b, hb⟩
        simpa only [firstGo, hr] using this

/-- Unfolding equation: `block` at positive fuel vaccums separators and
enters its loop. -/
theorem blockF_succ (n : Nat) (ts : Tokens) :
    (parsers (n + 1)).blockF ts
      = (parsers n).blockLoop (vaccum ts Token.Sep) [] [] := rfl

/-- Unfolding equation: the `block` loop on empty input finishes. -/
theorem blockLoop_succ_nil (n : Nat) (exprs : List (Spanned AST))
    (anns : List Span) :
    (parsers (n + 1)).blockLoop [] exprs anns
      = blockFinish exprs anns none [] := rfl

/-- Unfolding equation: the `block` loop on non-empty input parses a call,
breaking on error. -/
theorem blockLoop_succ_cons (n : Nat) (t : Spanned Token) (ts : Tokens)
    (exprs : List (Spanned AST)) (anns : List Span) :
    (parsers (n + 1)).blockLoop (t :: ts) exprs anns
      = match (parsers n).callF (t :: ts) with
        | PResult.ok (e, r) =>
          (parsers n).blockLoop (vaccum r Token.Sep) (exprs ++ [e])
            (anns ++ [e.span])
        | PResult.err er => blockFinish exprs anns (some er) (t :: ts)
        | PResult.panicked m => PResult.panicked m
        | PResult.fuelOut => PResult.fuelOut := rfl

/-- Unfolding equation for `call` at positive fuel. -/
theorem callF_succ (n : Nat) (ts : Tokens) :
    (parsers (n + 1)).callF ts
      = match (parsers n).exprF (vaccum ts Token.Sep) with
        | PResult.ok (previous, remaining) =>
          (parsers n).callLoop previous remaining
        | PResult.err e => PResult.err e
        | PResult.panicked m => PResult.panicked m
        | PResult.fuelOut => PResult.fuelOut := rfl

/-- Unfolding equation: the `call` loop stops on empty input. -/
theorem callLoop_succ_nil (n : Nat) (previous : Spanned AST) :
    (parsers (n + 1)).callLoop previous [] = PResult.ok (previous, []) := rfl

/-- Unfolding equation: the `call` loop folds one more application,
breaking on error. -/
theorem callLoop_succ_cons (n : Nat) (previous : Spanned AST)
    (t : Spanned Token) (ts : Tokens) :
    (parsers (n + 1)).callLoop previous (t :: ts)
      = match (parsers n).exprF (t :: ts) with
        | PResult.ok (arg, r) =>
          (parsers n).callLoop
            ⟨AST.call previous arg, Span.combine previous.span arg.span⟩ r
        | PResult.err _ => PResult.ok (previous, t :: ts)
        | PResult.panicked m => PResult.panicked m
        | PResult.fuelOut => PResult.fuelOut := rfl

/-- Unfolding equation for `expr` at positive fuel. -/
theorem exprF_succ (n : Nat) (ts : Tokens) :
    (parsers (n + 1)).exprF ts
      = firstP ts [(parsers n).expr_blockF, (parsers n).expr_callF,
          (parsers n).opF, fun s => literalF s] := rfl

/-- Unfolding equation for `expr_block` at positive fuel. -/
theorem expr_blockF_succ (n : Nat) (ts : Tokens) :
    (parsers (n + 1)).expr_blockF ts
      = match consume ts Token.OpenBracket with
        | Except.error e => PResult.err e
        | Except.ok start =>
          match (parsers n).blockF start with
          | PResult.ok (ast, error, remaining) =>
            match consume remaining Token.CloseBracket with
            | Except.ok toks => PResult.ok (ast, toks)
            | Except.error e =>
              match error with
              | some s => PResult.err s
              | none => PResult.err e
          | PResult.err e => PResult.err e
          | PResult.panicked m => PResult.panicked m
          | PResult.fuelOut => PResult.fuelOut := rfl

/-- Unfolding equation for `expr_call` at positive fuel. -/
theorem expr_callF_succ (n : Nat) (ts : Tokens) :
    (parsers (n + 1)).expr_callF ts
      = match consume ts Token.OpenParen with
        | Except.error e => PResult.err e
        | Except.ok start =>
          match (parsers n).callF start with
          | PResult.ok (ast, finish) =>
            match consume finish Token.CloseParen with
            | Except.ok remaining => PResult.ok (ast, remaining)
            | Except.error e => PResult.err e
          | PResult.err e => PResult.err e
          | PResult.panicked m => PResult.panicked m
          | PResult.fuelOut => PResult.fuelOut := rfl

/-- Unfolding equation for `assign_assign` at positive fuel. -/
theorem assign_assignF_succ (n : Nat) (ts : Tokens) :
    (parsers (n + 1)).assign_assignF ts
      = match literalF ts with
        | PResult.ok (next, remaining) =>
          match next with
          | ⟨AST.Symbol, sspan⟩ =>
            match consume remaining Token.Assign with
            | Except.error e => PResult.err e
            | Except.ok rem2 =>
              match (parsers n).callF rem2 with
              | PResult.ok (e, remaining2) =>
                PResult.ok
                  (⟨AST.assign ⟨AST.Symbol, sspan⟩ e,
                      Span.combine sspan e.span⟩, remaining2)
              | PResult.err e => PResult.err e
              | PResult.panicked m => PResult.panicked m
              | PResult.fuelOut => PResult.fuelOut
          | other => PResult.err ⟨"Expected symbol for assignment", other.span⟩
        | PResult.err e => PResult.err e
        | PResult.panicked m => PResult.panicked m
        | PResult.fuelOut => PResult.fuelOut := rfl

/-- Unfolding equation for `lambda` at positive fuel. -/
theorem lambdaF_succ (n : Nat) (ts : Tokens) :
    (parsers (n + 1)).lambdaF ts
      = match literalF ts with
        | PResult.ok (next, remaining) =>
          match next with
          | ⟨AST.Symbol, sspan⟩ =>
            match consume remaining Token.Lambda with
            | Except.error e => PResult.err e
            | Except.ok rem2 =>
              match (parsers n).callF rem2 with
              | PResult.ok (e, remaining2) =>
                PResult.ok
                  (⟨AST.lambda ⟨AST.Symbol, sspan⟩ e,
                      Span.combine sspan e.span⟩, remaining2)
              | PResult.err e => PResult.err e
              | PResult.panicked m => PResult.panicked m
              | PResult.fuelOut => PResult.fuelOut
          | other =>
            PResult.err ⟨"Expected symbol for function paramater", other.span⟩
        | PResult.err e => PResult.err e
        | PResult.panicked m => PResult.panicked m
        | PResult.fuelOut => PResult.fuelOut := rfl

/-- Every separator-only stream vaccums to nothing. -/
theorem vaccum_all_sep : ∀ (ts : Tokens),
    (∀ t ∈ ts, t.item = Token.Sep) → vaccum ts Token.Sep = [] := by
  intro ts h
  induction ts with
  | nil => rfl
  | cons t rest ih =>
    show vaccum (t :: rest) Token.Sep = []
    simp only [vaccum, if_pos (h t (List.mem_cons_self t rest))]
    exact ih fun t' h' => h t' (List.mem_cons_of_mem t h')

/-- On an all-separator stream (two fuel steps suffice to reach the empty
check) `parse` panics with the empty-block message. -/
theorem parseF_all_sep (fuel : Nat) (tokens : Tokens)
    (h : ∀ t ∈ tokens, t.item = Token.Sep) :
    parseF (fuel + 2) tokens = PResult.panicked "annotations were empty" := by
  have hv : vaccum tokens Token.Sep = [] := vaccum_all_sep tokens h
  have hb : (parsers (fuel + 2)).blockF tokens
      = PResult.panicked "annotations were empty" := by
    rw [blockF_succ, hv, blockLoop_succ_nil]
    rfl
  rw [parseF, hb]

/-- `blockFinish` can only panic with the empty-block message. -/
theorem goodR_blockFinish (exprs : List (Spanned AST)) (anns : List Span)
    (error : Option Syn) (remaining : Tokens) :
    GoodR (blockFinish exprs anns error remaining) := by
  intro m hm
  unfold blockFinish at hm
  by_cases he : anns.isEmpty
  · rw [if_pos he] at hm
    injection hm with hh
    exact hh.symm
  · rw [if_neg he] at hm
    exact PResult.noConfusion hm

/-- `literal` never panics. -/
theorem goodR_literalF (tokens : Tokens) : GoodR (literalF tokens) := by
  intro m hm
  unfold literalF at hm
  split at hm
  · split at hm <;> exact PResult.noConfusion hm
  · exact PResult.noConfusion hm

/-- The `first` loop only panics by unwinding a panicking rule. -/
theorem goodR_firstPGo (tokens : Tokens) :
    ∀ (rules : List (Tokens → PResult Bite)) (worst : Option Syn),
      (∀ r ∈ rules, GoodR (r tokens)) →
      GoodR (firstPGo tokens rules worst) := by
  intro rules
  induction rules with
  | nil =>
    intro worst _ m hm
    cases worst with
    | some e =>
      simp only [firstPGo] at hm
      exact PResult.noConfusion hm
    | none =>
      simp only [firstPGo] at hm
      cases tokens with
      | nil => exact PResult.noConfusion hm
      | cons t ts => exact PResult.noConfusion hm
  | cons r rs ih =>
    intro worst hall m hm
    simp only [firstPGo] at hm
    cases hr : r tokens with
    | ok res =>
      rw [hr] at hm
      exact PResult.noConfusion hm
    | err e =>
      rw [hr] at hm
      exact ih (escalate worst e)
        (fun r' h' => hall r' (List.mem_cons_of_mem r h')) m hm
    | panicked mm =>
      rw [hr] at hm
      injection hm with hh
      exact hall r (List.mem_cons_self r rs) m (by rw [hr, hh])
    | fuelOut =>
      rw [hr] at hm
      exact PResult.noConfusion hm

/-- At every fuel level, each parser function can only panic with the
empty-block message: the two `panic!` sites of parse.rs are the empty
block check and the leftover-token check in `parse` itself, and only the
former lives below `block`. -/
theorem parsers_good : ∀ n : Nat,
    (∀ ts, GoodR ((parsers n).blockF ts))
    ∧ (∀ ts es anns, GoodR ((parsers n).blockLoop ts es anns))
    ∧ (∀ ts, GoodR ((parsers n).callF ts))
    ∧ (∀ pv ts, GoodR ((parsers n).callLoop pv ts))
    ∧ (∀ ts, GoodR ((parsers n).exprF ts))
    ∧ (∀ ts, GoodR ((parsers n).expr_blockF ts))
    ∧ (∀ ts, GoodR ((parsers n).expr_callF ts))
    ∧ (∀ ts, GoodR ((parsers n).opF ts))
    ∧ (∀ ts, GoodR ((parsers n).assignF ts))
    ∧ (∀ ts, GoodR ((parsers n).assign_assignF ts))
    ∧ (∀ ts, GoodR ((parsers n).lambdaF ts)) := by
  intro n
  induction n with
  | zero =>
    exact ⟨fun ts m hm => PResult.noConfusion hm,
      fun ts es anns m hm => PResult.noConfusion hm,
      fun ts m hm => PResult.noConfusion hm,
      fun pv ts m hm => PResult.noConfusion hm,
      fun ts m hm => PResult.noConfusion hm,
      fun ts m hm => PResult.noConfusion hm,
      fun ts m hm => PResult.noConfusion hm,
      fun ts m hm => PResult.noConfusion hm,
      fun ts m hm => PResult.noConfusion hm,
      fun ts m hm => PResult.noConfusion hm,
      fun ts m hm => PResult.noConfusion hm⟩
  | succ n ih =>
    obtain ⟨ihB, ihBL, ihC, ihCL, ihE, ihEB, ihEC, ihO, ihA, ihAA, ihL⟩ := ih
    refine ⟨?_, ?_, ?_, ?_, ?_, ?_, ?_, ?_, ?_, ?_, ?_⟩
    · exact fun ts => ihBL _ _ _
    · intro rem exprs anns m hm
      cases rem with
      | nil =>
        rw [blockLoop_succ_nil] at hm
        exact goodR_blockFinish _ _ _ _ m hm
      | cons t ts' =>
        rw [blockLoop_succ_cons] at hm
        cases hc : (parsers n).callF (t :: ts') with
        | ok b =>
          obtain ⟨e, r⟩ := b
          rw [hc] at hm
          exact ihBL _ _ _ m hm
        | err er =>
          rw [hc] at hm
          exact goodR_blockFinish _ _ _ _ m hm
        | panicked mm =>
          rw [hc] at hm
          injection hm with hh
          exact ihC _ m (by rw [hc, hh])
        | fuelOut =>
          rw [hc] at hm
          exact PResult.noConfusion hm
    · intro ts m hm
      rw [callF_succ] at hm
      cases hc : (parsers n).exprF (vaccum ts Token.Sep) with
      | ok b =>
        obtain ⟨prev, rem⟩ := b
        rw [hc] at hm
        exact ihCL _ _ m hm
      | err e =>
        rw [hc] at hm
        exact PResult.noConfusion hm
      | panicked mm =>
        rw [hc] at hm
        injection hm with hh
        exact ihE _ m (by rw [hc, hh])
      | fuelOut =>
        rw [hc] at hm
        exact PResult.noConfusion hm
    · intro prev rem m hm
      cases rem with
      | nil =>
        rw [callLoop_succ_nil] at hm
        exact PResult.noConfusion hm
      | cons t ts' =>
        rw [callLoop_succ_cons] at hm
        cases hc : (parsers n).exprF (t :: ts') with
        | ok b =>
          obtain ⟨arg, r⟩ := b
          rw [hc] at hm
          exact ihCL _ _ m hm
        | err e =>
          rw [hc] at hm
          exact PResult.noConfusion hm
        | panicked mm =>
          rw [hc] at hm
          injection hm with hh
          exact ihE _ m (by rw [hc, hh])
        | fuelOut =>
          rw [hc] at hm
          exact PResult.noConfusion hm
    · intro ts
      rw [exprF_succ]
      apply goodR_firstPGo
      intro r hr
      rcases List.mem_cons.mp hr with rfl | hr
      · exact ihEB ts
      rcases List.mem_cons.mp hr with rfl | hr
      · exact ihEC ts
      rcases List.mem_cons.mp hr with rfl | hr
      · exact ihO ts
      rcases List.mem_cons.mp hr with rfl | hr
      · exact goodR_literalF ts
      cases hr
    · intro ts m hm
      rw [expr_blockF_succ] at hm
      cases hcon : consume ts Token.OpenBracket with
      | error e =>
        rw [hcon] at hm
        exact PResult.noConfusion hm
      | ok start =>
        rw [hcon] at hm
        simp only [] at hm
        cases hb : (parsers n).blockF start with
        | ok tr =>
          obtain ⟨ast, error, remaining⟩ := tr
          rw [hb] at hm
          simp only [] at hm
          cases hc2 : consume remaining Token.CloseBracket with
          | ok toks =>
            rw [hc2] at hm
            exact PResult.noConfusion hm
          | error e =>
            rw [hc2] at hm
            cases error with
            | some s => exact PResult.noConfusion hm
            | none => exact PResult.noConfusion hm
        | err e =>
          rw [hb] at hm
          exact PResult.noConfusion hm
        | panicked mm =>
          rw [hb] at hm
          injection hm with hh
          exact ihB _ m (by rw [hb, hh])
        | fuelOut =>
          rw [hb] at hm
          exact PResult.noConfusion hm
    · intro ts m hm
      rw [expr_callF_succ] at hm
      cases hcon : consume ts Token.OpenParen with
      | error e =>
        rw [hcon] at hm
        exact PResult.noConfusion hm
      | ok start =>
        rw [hcon] at hm
        simp only [] at hm
        cases hc : (parsers n).callF start with
        | ok b =>
          obtain ⟨ast, finish⟩ := b
          rw [hc] at hm
          simp only [] at hm
          cases hc2 : consume finish Token.CloseParen with
          | ok rem =>
            rw [hc2] at hm
            exact PResult.noConfusion hm
          | error e =>
            rw [hc2] at hm
            exact PResult.noConfusion hm
        | err e =>
          rw [hc] at hm
          exact PResult.noConfusion hm
        | panicked mm =>
          rw [hc] at hm
          injection hm with hh
          exact ihC _ m (by rw [hc, hh])
        | fuelOut =>
          rw [hc] at hm
          exact PResult.noConfusion hm
    · exact fun ts => ihA ts
    · intro ts
      apply goodR_firstPGo
      intro r hr
      rcases List.mem_cons.mp hr with rfl | hr
      · exact ihAA ts
      rcases List.mem_cons.mp hr with rfl | hr
      · exact ihL ts
      cases hr
    · intro ts m hm
      rw [assign_assignF_succ] at hm
      cases hl : literalF ts with
      | ok b =>
        obtain ⟨next, remaining⟩ := b
        obtain ⟨item, sp⟩ := next
        rw [hl] at hm
        simp only [] at hm
        cases item with
        | Symbol =>
          simp only [] at hm
          cases hcon : consume remaining Token.Assign with
          | error e =>
            rw [hcon] at hm
            exact PResult.noConfusion hm
          | ok rem2 =>
            rw [hcon] at hm
            simp only [] at hm
            cases hc : (parsers n).callF rem2 with
            | ok b2 =>
              obtain ⟨e, rem3⟩ := b2
              rw [hc] at hm
              exact PResult.noConfusion hm
            | err e =>
              rw [hc] at hm
              exact PResult.noConfusion hm
            | panicked mm =>
              rw [hc] at hm
              injection hm with hh
              exact ihC _ m (by rw [hc, hh])
            | fuelOut =>
              rw [hc] at hm
              exact PResult.noConfusion hm
        | data d => exact PResult.noConfusion hm
        | block es => exact PResult.noConfusion hm
        | call f a => exact PResult.noConfusion hm
        | lambda p b => exact PResult.noConfusion hm
        | assign p e => exact PResult.noConfusion hm
      | err e =>
        rw [hl] at hm
        exact PResult.noConfusion hm
      | panicked mm =>
        rw [hl] at hm
        injection hm with hh
        exact goodR_literalF ts m (by rw [hl, hh])
      | fuelOut =>
        rw [hl] at hm
        exact PResult.noConfusion hm
    · intro ts m hm
      rw [lambdaF_succ] at hm
      cases hl : literalF ts with
      | ok b =>
        obtain ⟨next, remaining⟩ := b
        obtain ⟨item, sp⟩ := next
        rw [hl] at hm
        simp only [] at hm
        cases item with
        | Symbol =>
          simp only [] at hm
          cases hcon : consume remaining Token.Lambda with
          | error e =>
            rw [hcon] at hm
            exact PResult.noConfusion hm
          | ok rem2 =>
            rw [hcon] at hm
            simp only [] at hm
            cases hc : (parsers n).callF rem2 with
            | ok b2 =>
              obtain ⟨e, rem3⟩ := b2
              rw [hc] at hm
              exact PResult.noConfusion hm
            | err e =>
              rw [hc] at hm
              exact PResult.noConfusion hm
            | panicked mm =>
              rw [hc] at hm
              injection hm with hh
              exact ihC _ m (by rw [hc, hh])
            | fuelOut =>
              rw [hc] at hm
              exact PResult.noConfusion hm
        | data d => exact PResult.noConfusion hm
        | block es => exact PResult.noConfusion hm
        | call f a => exact PResult.noConfusion hm
        | lambda p b => exact PResult.noConfusion hm
        | assign p e => exact PResult.noConfusion hm
      | err e =>
        rw [hl] at hm
        exact PResult.noConfusion hm
      | panicked mm =>
        rw [hl] at hm
        injection hm with hh
        exact goodR_literalF ts m (by rw [hl, hh])
      | fuelOut =>
        rw [hl] at hm
        exact PResult.noConfusion hm

/-- The `block` loop only returns error-free with an empty remainder: it
exits cleanly only via the empty-input check, and an interrupting error is
recorded in the returned triple. -/
theorem blockLoop_none_empty : ∀ (n : Nat) (rem : Tokens)
    (exprs : List (Spanned AST)) (anns : List Span) (a : Spanned AST)
    (r : Tokens),
    (parsers n).blockLoop rem exprs anns = PResult.ok (a, none, r) →
    r = [] := by
  intro n
  induction n with
  | zero =>
    intro rem exprs anns a r h
    exact PResult.noConfusion h
  | succ n ih =>
    intro rem exprs anns a r h
    cases rem with
    | nil =>
      rw [blockLoop_succ_nil] at h
      unfold blockFinish at h
      by_cases he : anns.isEmpty
      · rw [if_pos he] at h
        exact PResult.noConfusion h
      · rw [if_neg he] at h
        injection h with hh
        exact (congrArg (fun x => x.2.2) hh).symm
    | cons t ts' =>
      rw [blockLoop_succ_cons] at h
      cases hc : (parsers n).callF (t :: ts') with
      | ok b =>
        obtain ⟨e, rr⟩ := b
        rw [hc] at h
        exact ih _ _ _ _ _ h
      | err er =>
        rw [hc] at h
        simp only [] at h
        unfold blockFinish at h
        by_cases he : anns.isEmpty
        · rw [if_pos he] at h
          exact PResult.noConfusion h
        · rw [if_neg he] at h
          injection h with hh
          exact Option.noConfusion (congrArg (fun x => x.2.1) hh)
      | panicked mm =>
        rw [hc] at h
        exact PResult.noConfusion h
      | fuelOut =>
        rw [hc] at h
        exact PResult.noConfusion h

/-- `block` only returns error-free having consumed every token. -/
theorem blockF_none_empty (n : Nat) (ts : Tokens) (a : Spanned AST)
    (r : Tokens) (h : (parsers n).blockF ts = PResult.ok (a, none, r)) :
    r = [] := by
  cases n with
  | zero => exact PResult.noConfusion h
  | succ n =>
    rw [blockF_succ] at h
    exact blockLoop_none_empty n _ _ _ _ _ h

/-- The only message `parse` can panic with is the empty-block one: its
own `Did not consume all tokens` branch is dead, because an error-free
`block` leaves nothing to vaccum. -/
theorem parseF_panic_msg (fuel : Nat) (ts : Tokens) (m : String)
    (h : parseF fuel ts = PResult.panicked m) :
    m = "annotations were empty" := by
  rw [parseF] at h
  cases hb : (parsers fuel).blockF ts with
  | ok tr =>
    obtain ⟨ast, error, rem⟩ := tr
    rw [hb] at h
    cases error with
    | some e => exact PResult.noConfusion h
    | none =>
      have hr : rem = [] := blockF_none_empty fuel ts ast rem hb
      subst hr
      simp only [] at h
      rw [if_pos (show List.isEmpty (vaccum ([] : Tokens) Token.Sep) = true
        from rfl)] at h
      exact PResult.noConfusion h
  | err e =>
    rw [hb] at h
    exact PResult.noConfusion h
  | panicked mm =>
    rw [hb] at h
    injection h with hh
    exact (parsers_good fuel).1 ts m (by rw [hb, hh])
  | fuelOut =>
    rw [hb] at h
    exact PResult.noConfusion h
end Passerine

namespace Passerine

/-! Claim theorems. -/

/-- Claim C1 (code bug): on the balanced sequence
`init(); push_frame(k); pop_frame()` the push succeeds, threading the
continuation into the old sentinel slot, but `pop_frame` aborts instead of
returning `k`: after popping the frame index (1) and the sentinel, it
swaps at `stack[1]`, one past the new end of the stack, rather than at the
caller's base `frames.last()` (0) where the `Suspend` actually sits. -/
theorem claim_C1_pop_frame_aborts :
    Stack.init.push_frame ⟨7, 3⟩ =
      some { frames := [0, 1],
             stack := [⟨Slot.Suspend ⟨7, 3⟩⟩, ⟨Slot.Frame⟩],
             store := [] }
    ∧ Stack.pop_frame
        { frames := [0, 1],
          stack := [⟨Slot.Suspend ⟨7, 3⟩⟩, ⟨Slot.Frame⟩],
          store := [] } = none := by
  exact ⟨by decide, by decide⟩

/-- Claim C2, amended: decoding an encoded cell returns the value exactly
for every value except a real whose bit pattern has all `QNAN` mask bits
set; in particular every non-NaN real round-trips (second conjunct: a
non-NaN pattern never collides with the tag mask), and a NaN real
round-trips bit-exactly iff its pattern avoids the mask. (`addr < 2 ^ 48`
is the platform assumption that heap addresses fit the 48-bit pointer
payload.) -/
theorem claim_C2_roundtrip :
    (∀ (addr : Nat) (v : Data), addr < 2 ^ 48 →
        (∀ f, v = Data.Real f → f &&& QNAN ≠ QNAN) →
        (Tagged.new addr v).data = some v)
    ∧ (∀ f, isNaN f = false → f &&& QNAN ≠ QNAN) := by
  constructor
  · intro addr v _ hreal
    cases v with
    | Real f =>
      have hne := hreal f rfl
      show Tagged.data ⟨f, none⟩ = some (Data.Real f)
      rw [Tagged.data, Tagged.extract, if_pos hne]
    | Boolean b =>
      cases b
      · show Tagged.data ⟨QNAN ||| F_FLAG, none⟩ = some (Data.Boolean false)
        decide
      · show Tagged.data ⟨QNAN ||| T_FLAG, none⟩ = some (Data.Boolean true)
        decide
    | Unit =>
      show Tagged.data ⟨QNAN ||| U_FLAG, none⟩ = some Data.Unit
      decide
    | String s =>
      show Tagged.data ⟨P_FLAG ||| QNAN ||| (P_MASK &&& addr),
          some (Data.String s)⟩ = _
      rw [Tagged.data, extract_ptr]
    | Heaped a =>
      show Tagged.data ⟨P_FLAG ||| QNAN ||| (P_MASK &&& addr),
          some (Data.Heaped a)⟩ = _
      rw [Tagged.data, extract_ptr]
    | Frame =>
      show Tagged.data ⟨P_FLAG ||| QNAN ||| (P_MASK &&& addr),
          some Data.Frame⟩ = _
      rw [Tagged.data, extract_ptr]
  · exact fun f h => not_isNaN_no_collide h

/-- Witness for claim C2: a boxed string and a non-NaN real round-trip at
the concrete address 4096. -/
theorem claim_C2_roundtrip_witness :
    (4096 < 2 ^ 48)
    ∧ (Tagged.new 4096 (Data.String "ok")).data = some (Data.String "ok")
    ∧ (Tagged.new 4096 (Data.Real 3)).data = some (Data.Real 3) := by
  refine ⟨by norm_num, ?_, ?_⟩
  · exact claim_C2_roundtrip.1 4096 _ (by norm_num)
      (fun f h => Data.noConfusion h)
  · exact claim_C2_roundtrip.1 4096 _ (by norm_num)
      (fun f h => by cases h; decide)

/-- Counterexample to claim C2 as stated: the bit pattern `QNAN` itself is
a NaN (all-ones exponent, non-zero mantissa), yet the encoded cell decodes
to `Unit`, not to a NaN real. -/
theorem claim_C2_counterexample :
    isNaN QNAN = true
    ∧ (Tagged.new 0 (Data.Real QNAN)).data = some Data.Unit := by
  exact ⟨by decide, by decide⟩

/-- Claim C3 (code bug): consuming a pointer-tagged cell with
`Tagged::data` reclaims its heap box twice — once in `extract` and once
more in the cell's own `Drop`, which `mem::forget(&self)` fails to
suppress — while a never-consumed cell dropped once reclaims it exactly
once, as the claim demands. -/
theorem claim_C3_double_reclaim :
    (Tagged.new 4096 (Data.String "s")).dataReclaims = 2
    ∧ (Tagged.new 4096 (Data.String "s")).dropReclaims = 1 := by
  exact ⟨by decide, by decide⟩

/-- Counterexample to claim C4 as stated: in the scenario
`push Boolean(true); set_local(0); heapify(0); push Boolean(false);
set_local(0)`, the non-destructive read `local_data(0)` returns the
`Heaped` indirection itself, not `Boolean(false)` — `local_data` clones
the decoded slot without dereferencing a shared local. -/
theorem claim_C4_counterexample :
    scenC4.map Prod.fst = some (Data.Heaped 0)
    ∧ scenC4.map Prod.fst ≠ some (Data.Boolean false) := by
  exact ⟨by decide, by decide⟩

/-- Claim C4, amended: in that scenario promotion creates a single shared
referent and `set_local` mutates it in place — the local still holds the
same indirection `Heaped 0`, whose referent in the store is now
`Boolean(false)` — but `local_data(0)` hands back the indirection, and the
mutated value is observed through it (or by `pop_data`, which does
dereference). -/
theorem claim_C4_shared_mutation :
    ∃ s, scenC4 = some (Data.Heaped 0, s)
      ∧ s.store[0]? = some (Data.Boolean false)
      ∧ s.stack[1]? = some ⟨Slot.Data (Data.Heaped 0)⟩ := by
  exact ⟨{ frames := [0],
           stack := [⟨Slot.Frame⟩, ⟨Slot.Data (Data.Heaped 0)⟩],
           store := [Data.Boolean false] },
         by decide, by decide, by decide⟩

/-- Claim C5: when the top cell decodes to data, `pop_data` removes it
and returns the current referent of a `Heaped` indirection (never the bare
indirection), and the data itself in every other case. -/
theorem claim_C5_pop_data :
    ∀ (s : Stack) (d : Data), s.stack.getLast? = some ⟨Slot.Data d⟩ →
      (∀ (a : Nat) (v : Data), d = Data.Heaped a → s.store[a]? = some v →
          s.pop_data = some (v, { s with stack := s.stack.dropLast }))
      ∧ ((∀ a, d ≠ Data.Heaped a) →
          s.pop_data = some (d, { s with stack := s.stack.dropLast })) := by
  intro s d hd
  constructor
  · intro a v hda hv
    subst hda
    simp only [Stack.pop_data, hd, Slot.data]
    rw [hv]
  · intro hnot
    cases d with
    | Heaped a => exact absurd rfl (hnot a)
    | Real f => simp only [Stack.pop_data, hd, Slot.data]
    | Boolean b => simp only [Stack.pop_data, hd, Slot.data]
    | Unit => simp only [Stack.pop_data, hd, Slot.data]
    | String str => simp only [Stack.pop_data, hd, Slot.data]
    | Frame => simp only [Stack.pop_data, hd, Slot.data]

/-- Witness for claim C5: a plain boolean pops as itself, and a `Heaped`
top cell pops as its referent. -/
theorem claim_C5_pop_data_witness :
    (Stack.init.push_data (Data.Boolean true)).pop_data
        = some (Data.Boolean true, Stack.init)
    ∧ Stack.pop_data
        { frames := [0],
          stack := [⟨Slot.Frame⟩, ⟨Slot.Data (Data.Heaped 0)⟩],
          store := [Data.Boolean true] }
        = some (Data.Boolean true,
            { frames := [0], stack := [⟨Slot.Frame⟩],
              store := [Data.Boolean true] }) := by
  constructor
  · exact (claim_C5_pop_data (Stack.init.push_data (Data.Boolean true))
      (Data.Boolean true) (by decide)).2 (fun a h => Data.noConfusion h)
  · exact (claim_C5_pop_data
      { frames := [0],
        stack := [⟨Slot.Frame⟩, ⟨Slot.Data (Data.Heaped 0)⟩],
        store := [Data.Boolean true] }
      (Data.Heaped 0) (by decide)).1 0 (Data.Boolean true) rfl (by decide)

/-- Claim C6: underflow is fatal — `pop_data` on a freshly initialized
stack aborts (the only cell is the frame sentinel, which is not data),
`set_local` aborts when the local's computed position lies beyond the
current top, and the local peeks abort when the position is out of
bounds. -/
theorem claim_C6_underflow :
    Stack.init.pop_data = none
    ∧ (∀ (s : Stack) (i fi : Nat), s.frames.getLast? = some fi →
        s.stack.length - 1 < fi + i + 1 → s.set_local i = none)
    ∧ (∀ (s : Stack) (i fi : Nat), s.frames.getLast? = some fi →
        s.stack.length ≤ fi + i + 1 →
        s.local_data i = none ∧ s.local_slot i = none) := by
  refine ⟨by decide, ?_, ?_⟩
  · intro s i fi hf hlt
    simp only [Stack.set_local, hf]
    rw [if_neg (by omega), if_pos hlt]
  · intro s i fi hf hle
    have hnone : s.stack[fi + i + 1]? = none := List.getElem?_eq_none hle
    exact ⟨by simp only [Stack.local_data, hf, hnone],
           by simp only [Stack.local_slot, hf, hnone]⟩

/-- Witness for claim C6: on the freshly initialized stack, setting local
3 and peeking local 0 both abort. -/
theorem claim_C6_underflow_witness :
    (Stack.init.stack.length - 1 < 0 + 3 + 1
      ∧ Stack.init.set_local 3 = none)
    ∧ (Stack.init.stack.length ≤ 0 + 0 + 1
      ∧ Stack.init.local_data 0 = none ∧ Stack.init.local_slot 0 = none) := by
  refine ⟨⟨by decide, claim_C6_underflow.2.1 Stack.init 3 0 rfl (by decide)⟩,
          ⟨by decide, claim_C6_underflow.2.2 Stack.init 0 0 rfl (by decide)⟩⟩

/-- Claim C7: the stack invariant — a non-empty frame-base list whose
newest base indexes a cell decoding to the `Frame` sentinel — holds after
`init` and is preserved by every non-aborting operation (`pop_frame`
preserves it vacuously: under the invariant it always aborts). -/
theorem claim_C7_invariant :
    Inv Stack.init
    ∧ (∀ (s : Stack) (d : Data), Inv s → Inv (s.push_data d))
    ∧ (∀ (s : Stack) (c : Cell), Inv s → Inv (s.push_tagged c))
    ∧ (∀ (s : Stack) (r : Data × Stack), Inv s →
        s.pop_data = some r → Inv r.2)
    ∧ (∀ (s : Stack) (k : Suspend) (s' : Stack), Inv s →
        s.push_frame k = some s' → Inv s')
    ∧ (∀ (s : Stack) (r : Suspend × Stack), Inv s →
        s.pop_frame = some r → Inv r.2)
    ∧ (∀ (s : Stack) (i : Nat) (s' : Stack), Inv s →
        s.heapify i = some s' → Inv s')
    ∧ (∀ (s : Stack) (i : Nat) (s' : Stack), Inv s →
        s.set_local i = some s' → Inv s')
    ∧ (∀ (s : Stack) (i : Nat) (r : Data × Stack), Inv s →
        s.local_data i = some r → Inv r.2)
    ∧ (∀ (s : Stack) (i : Nat) (r : Slot × Stack), Inv s →
        s.local_slot i = some r → Inv r.2) := by
  refine ⟨⟨0, rfl, rfl⟩, inv_push_data, inv_push_tagged,
    fun s r h hp => inv_pop_data s r h hp,
    fun s k s' h hp => inv_push_frame s k s' h hp,
    fun s r h hp => ?_,
    fun s i s' h hp => inv_heapify s i s' h hp,
    fun s i s' h hp => inv_set_local s i s' h hp,
    fun s i r h hp => inv_local_data s i r h hp,
    fun s i r h hp => inv_local_slot s i r h hp⟩
  rw [pop_frame_none_of_inv s h] at hp
  exact Option.noConfusion hp

/-- Witness for claim C7: the invariant holds for the initial stack, is
kept by a concrete push, and by the frame push that succeeds on it. -/
theorem claim_C7_invariant_witness :
    Inv Stack.init
    ∧ Inv (Stack.init.push_data Data.Unit)
    ∧ (Stack.init.push_frame ⟨1, 2⟩ =
        some { frames := [0, 1],
               stack := [⟨Slot.Suspend ⟨1, 2⟩⟩, ⟨Slot.Frame⟩],
               store := [] }
      ∧ Inv { frames := [0, 1],
              stack := [⟨Slot.Suspend ⟨1, 2⟩⟩, ⟨Slot.Frame⟩],
              store := [] }) := by
  refine ⟨claim_C7_invariant.1,
    claim_C7_invariant.2.1 Stack.init Data.Unit claim_C7_invariant.1,
    by decide,
    claim_C7_invariant.2.2.2.2.1 Stack.init ⟨1, 2⟩ _ claim_C7_invariant.1
      (by decide)⟩

/-- Claim C9: longest-match error recovery in `first` — when every rule
fails, the returned error is one of the rules' errors and dominates every
rule's error in the escalation order (strictly greatest start offset,
ties broken towards the latest end); when at least one rule succeeds,
`first` returns a successful parse. -/
theorem claim_C9_first_longest_match :
    (∀ (tokens : Tokens) (rules : List Rule),
        rules ≠ [] →
        (∀ r ∈ rules, ∃ e, r tokens = Except.error e) →
        ∃ e, first tokens rules = Except.error e
          ∧ (∃ r ∈ rules, r tokens = Except.error e)
          ∧ (∀ r ∈ rules, ∀ e', r tokens = Except.error e' → leKey e' e))
    ∧ (∀ (tokens : Tokens) (rules : List Rule),
        (∃ r ∈ rules, ∃ b, r tokens = Except.ok b) →
        ∃ b, first tokens rules = Except.ok b) := by
  constructor
  · intro tokens rules hne hall
    match rules, hne with
    | r :: rs, _ =>
      obtain ⟨e0, he0⟩ := hall r (List.mem_cons_self r rs)
      have hrs : ∀ r' ∈ rs, ∃ e, r' tokens = Except.error e :=
        fun r' hr' => hall r' (List.mem_cons_of_mem r hr')
      obtain ⟨e, h1, h2, h3, h4⟩ := firstGo_allFail tokens rs e0 hrs
      have hstep : first tokens (r :: rs) = firstGo tokens rs (some e0) := by
        simp only [first, firstGo, he0, escalate]
      refine ⟨e, by rw [hstep]; exact h1, ?_, ?_⟩
      · rcases h2 with h2 | ⟨r', hr', hre⟩
        · exact ⟨r, List.mem_cons_self r rs, h2 ▸ he0⟩
        · exact ⟨r', List.mem_cons_of_mem r hr', hre⟩
      · intro r' hr' e' hre'
        rcases List.mem_cons.mp hr' with rfl | hmem
        · rw [he0] at hre'
          injection hre' with hh
          exact hh ▸ h3
        · exact h4 r' hmem e' hre'
  · exact fun tokens rules h => firstGo_ok tokens rules none h

/-- Witness for claim C9: with two concrete failing rules, `first` returns
ruleB's error (offset 3 beats offset 1), and it dominates both. -/
theorem claim_C9_first_longest_match_witness :
    (([ruleA, ruleB] : List Rule) ≠ [])
    ∧ (∀ r ∈ ([ruleA, ruleB] : List Rule), ∃ e, r [] = Except.error e)
    ∧ ∃ e, first [] [ruleA, ruleB] = Except.error e
        ∧ (∃ r ∈ ([ruleA, ruleB] : List Rule), r [] = Except.error e)
        ∧ (∀ r ∈ ([ruleA, ruleB] : List Rule), ∀ e',
            r [] = Except.error e' → leKey e' e) := by
  have hall : ∀ r ∈ ([ruleA, ruleB] : List Rule),
      ∃ e, r ([] : Tokens) = Except.error e := by
    intro r hr
    rcases List.mem_cons.mp hr with rfl | hr
    · exact ⟨_, rfl⟩
    · rcases List.mem_cons.mp hr with rfl | hr
      · exact ⟨_, rfl⟩
      · cases hr
  exact ⟨by simp, hall,
    claim_C9_first_longest_match.1 [] [ruleA, ruleB] (by simp) hall⟩

/-- Claim C10, amended: `parse` panics with `annotations were empty` on
the empty token list and on any all-separator stream; but `block` only
returns error-free having consumed every token (leftover-token streams
surface as `Err(Syntax)`), so the `Did not consume all tokens` panic is
dead code — the empty-block message is the only panic `parse` raises at
any fuel. -/
theorem claim_C10_parse_partiality :
    (∀ (fuel : Nat) (tokens : Tokens),
        (∀ t ∈ tokens, t.item = Token.Sep) →
        parseF (fuel + 2) tokens = PResult.panicked "annotations were empty")
    ∧ (∀ (n : Nat) (ts : Tokens) (a : Spanned AST) (r : Tokens),
        (parsers n).blockF ts = PResult.ok (a, none, r) → r = [])
    ∧ (∀ (fuel : Nat) (ts : Tokens) (m : String),
        parseF fuel ts = PResult.panicked m →
        m = "annotations were empty") := by
  exact ⟨parseF_all_sep, blockF_none_empty, parseF_panic_msg⟩

/-- Counterexample to claim C10 as stated: on `Symbol CloseParen`, `block`
successfully parses the symbol and leaves the non-separator `CloseParen`
unconsumed (with a recorded interrupting error), yet `parse` returns a
recoverable `Err(Syntax)` — it does not panic with
`Did not consume all tokens`. -/
theorem claim_C10_counterexample :
    blockRemaining ((parsers 20).blockF exC10)
        = some [⟨Token.CloseParen, ⟨1, 1⟩⟩]
    ∧ blockErrored ((parsers 20).blockF exC10) = some true
    ∧ (parseF 20 exC10).isErr = true
    ∧ parseF 20 exC10 ≠ PResult.panicked "Did not consume all tokens" := by
  have hiserr : (parseF 20 exC10).isErr = true := by decide
  refine ⟨by decide, by decide, hiserr, ?_⟩
  intro h
  rw [h] at hiserr
  exact Bool.noConfusion hiserr

/-- Witness for claim C10: the empty stream panics with the empty-block
message at fuel 2, and a one-symbol stream is parsed by `block` with
nothing left over. -/
theorem claim_C10_parse_partiality_witness :
    (∀ t ∈ ([] : Tokens), t.item = Token.Sep)
    ∧ parseF 2 [] = PResult.panicked "annotations were empty"
    ∧ ((parsers 10).blockF [⟨Token.Symbol, ⟨0, 1⟩⟩]
        = PResult.ok (⟨AST.block [⟨AST.Symbol, ⟨0, 1⟩⟩], ⟨0, 1⟩⟩, none, [])
      ∧ ([] : Tokens) = []) := by
  have hsep : ∀ t ∈ ([] : Tokens), t.item = Token.Sep := by simp
  have hblock : (parsers 10).blockF [⟨Token.Symbol, ⟨0, 1⟩⟩]
      = PResult.ok (⟨AST.block [⟨AST.Symbol, ⟨0, 1⟩⟩], ⟨0, 1⟩⟩, none, []) :=
    rfl
  exact ⟨hsep, claim_C10_parse_partiality.1 0 [] hsep,
    hblock, claim_C10_parse_partiality.2.1 10 _ _ _ hblock⟩

/-- Counterexample to claim C8 as stated: on a stack whose local 0 already
holds a `Heaped` indirection, `heapify(0)` does not fail — it completes,
leaving the local pointing at a fresh referent that is itself the old
indirection (a nested indirection). -/
theorem claim_C8_counterexample :
    stackC8.stack[0 + 0 + 1]? = some ⟨Slot.Data (Data.Heaped 0)⟩
    ∧ stackC8.heapify 0 ≠ none
    ∧ stackC8.heapify 0 =
        some { frames := [0],
               stack := [⟨Slot.Frame⟩, ⟨Slot.Data (Data.Heaped 1)⟩],
               store := [Data.Boolean true, Data.Heaped 0] } := by
  exact ⟨by decide, by decide, by decide⟩

/-- Claim C8, amended: `heapify` performs no already-shared check — on any
stack whose addressed local holds a `Heaped a` indirection it succeeds,
re-boxing the indirection itself: the local becomes `Heaped` of a fresh
address whose stored referent is `Heaped a`. -/
theorem claim_C8_heapify_nests :
    ∀ (s : Stack) (i fi a : Nat),
      s.frames.getLast? = some fi →
      s.stack[fi + i + 1]? = some ⟨Slot.Data (Data.Heaped a)⟩ →
      s.heapify i =
        some { frames := s.frames,
               stack := s.stack.set (fi + i + 1)
                 ⟨Slot.Data (Data.Heaped s.store.length)⟩,
               store := s.store ++ [Data.Heaped a] } := by
  intro s i fi a hf hl
  simp only [Stack.heapify, hf, hl, Slot.data]
  rw [List.set_set]

/-- Witness for claim C8's amended theorem at the concrete twice-promoted
stack. -/
theorem claim_C8_heapify_nests_witness :
    stackC8.frames.getLast? = some 0
    ∧ stackC8.stack[0 + 0 + 1]? = some ⟨Slot.Data (Data.Heaped 0)⟩
    ∧ stackC8.heapify 0 =
        some { frames := stackC8.frames,
               stack := stackC8.stack.set (0 + 0 + 1)
                 ⟨Slot.Data (Data.Heaped stackC8.store.length)⟩,
               store := stackC8.store ++ [Data.Heaped 0] } := by
  exact ⟨rfl, rfl, claim_C8_heapify_nests stackC8 0 0 0 rfl rfl⟩

end Passerine
